import Mathlib

/-!
# caddy-otel-span-name: the `update_span_name` middleware

A shallow embedding of `otel_span_name.go`.

* Go strings are modelled by Lean strings (sequences of Unicode code points,
  i.e. valid UTF-8 text).
* The mutable objects a request handler can reach (the response header map,
  the span stored in the request context and the debug log) are gathered in
  `World`; a handler is a function that transforms the world and returns an
  optional error.
* The collaborators of the middleware that live in libraries
  (`regexp`, `strings.TrimSpace`, `caddyfile.Dispenser`, the OpenTelemetry span)
  are modelled by their documented behaviour.
-/

namespace OtelSpanName

/-! ## Errors -/

/-- Go `error` values seen by the middleware: the argument error built by
`Dispenser.ArgErr` (it reports the text of the token under the cursor) and any
other error, such as one returned by a downstream handler. -/
inductive Error where
  | argErr (after : String)
  | other (msg : String)
  deriving DecidableEq, Repr

/-! ## OpenTelemetry: span context, attributes and span -/

/-- The `trace.SpanContext` of a request: trace and span identifiers, read as
numbers (the all-zero identifier is the number `0`). -/
structure SpanContext where
  traceID : Nat
  spanID : Nat
  deriving DecidableEq, Repr

/-- Go `SpanContext.IsValid`: both identifiers are non-zero. -/
def SpanContext.IsValid (sc : SpanContext) : Bool :=
  sc.traceID != 0 && sc.spanID != 0

/-- Go `attribute.Value`, for the value types used here. -/
inductive Value where
  | BoolValue (b : Bool)
  | StringValue (s : String)
  | Int64Value (i : Int)
  deriving DecidableEq, Repr

/-- Go `attribute.KeyValue`. -/
structure KeyValue where
  Key : String
  Value : Value
  deriving DecidableEq, Repr

/-- A mutation call received by a span. -/
inductive SpanCall where
  | SetName (name : String)
  | SetAttributes (kv : KeyValue)
  deriving DecidableEq, Repr

/-- The state of the span reachable from the request context: its display
name, the attributes attached so far (oldest first, a later entry for a key
overrides an earlier one) and the record of the mutation calls it received
(oldest first). -/
structure Span where
  name : String
  attributes : List KeyValue
  calls : List SpanCall
  deriving DecidableEq, Repr

/-- Go `span.SetName(name)`. -/
def Span.SetName (s : Span) (name : String) : Span :=
  { s with name := name, calls := s.calls ++ [SpanCall.SetName name] }

/-- Go `span.SetAttributes(kv)`. -/
def Span.SetAttributes (s : Span) (kv : KeyValue) : Span :=
  { s with attributes := s.attributes ++ [kv],
           calls := s.calls ++ [SpanCall.SetAttributes kv] }

/-- The value a span reports for an attribute key: the last one attached. -/
def Span.attribute? (s : Span) (key : String) : Option Value :=
  (s.attributes.reverse.find? (fun kv => kv.Key == key)).map (fun kv => kv.Value)

/-! ## HTTP request, response headers, world -/

/-- The response header store `w.Header()`; `Get` is the lookup
`http.Header.Get`, which returns `""` when the header is absent. -/
structure Header where
  Get : String → String

/-- The part of `*http.Request` the middleware reads: the span context found
in the request context (`trace.SpanContextFromContext(r.Context())`). -/
structure Request where
  spanContext : SpanContext

/-- Go `trace.SpanContextFromContext(r.Context())`. -/
def SpanContextFromContext (r : Request) : SpanContext :=
  r.spanContext

/-- The mutable state a handler can reach while serving one request. -/
structure World where
  header : Header
  span : Span
  logs : List String

/-- Go `usn.logger.Debug(msg)`: the message is appended to the debug log. -/
def World.Debug (w : World) (msg : String) : World :=
  { w with logs := w.logs ++ [msg] }

/-- Go `caddyhttp.Handler`: `next.ServeHTTP(w, r)` may change the world and
returns an error or `nil` (`none`). -/
abbrev Handler := Request → World → World × Option Error

/-! ## Regular expressions (`regexp`) -/

/-- The syntax tree of a regular expression, with the operators of
`regexp/syntax` that the pattern of this program uses. -/
inductive Regexp where
  | literal (runes : List Char)
  | anyCharNotNL
  | beginText
  | endText
  | capture (sub : Regexp)
  | star (sub : Regexp)
  | concat (a b : Regexp)
  | alternate (a b : Regexp)
  deriving Repr

/-- Iterates a one-step matcher `f` on a frontier of remainders, at most `k`
rounds, keeping only the steps that consume input. -/
def Regexp.starClosure (f : List Char → List (List Char)) :
    Nat → List (List Char) → List (List Char)
  | 0, frontier => frontier
  | k + 1, frontier =>
    frontier ++ Regexp.starClosure f k
      (frontier.flatMap (fun x => (f x).filter (fun y => decide (y.length < x.length))))

/-- All the ways `re` can match a prefix of `s`, each given by the input left
after the match. `n` is the length of the whole text, so that `s` is at the
beginning of the text exactly when its length is `n`. -/
def Regexp.ends (n : Nat) : Regexp → List Char → List (List Char)
  | Regexp.literal runes, s => if runes.isPrefixOf s then [s.drop runes.length] else []
  | Regexp.anyCharNotNL, s =>
    match s with
    | [] => []
    | c :: t => if c = '\n' then [] else [t]
  | Regexp.beginText, s => if s.length = n then [s] else []
  | Regexp.endText, s => if s.isEmpty then [s] else []
  | Regexp.capture sub, s => Regexp.ends n sub s
  | Regexp.star sub, s => Regexp.starClosure (fun x => Regexp.ends n sub x) s.length [s]
  | Regexp.concat a b, s => (Regexp.ends n a s).flatMap (fun x => Regexp.ends n b x)
  | Regexp.alternate a b, s => Regexp.ends n a s ++ Regexp.ends n b s

/-- Tries a match of `re` at every position of the text from `s` on. -/
def Regexp.searchFrom (re : Regexp) (n : Nat) : List Char → Bool
  | [] => !(Regexp.ends n re []).isEmpty
  | c :: t => !(Regexp.ends n re (c :: t)).isEmpty || Regexp.searchFrom re n t

/-- Go `re.Match(b)`: the text contains a match of `re` (at any position). -/
def Regexp.Match (re : Regexp) (b : String) : Bool :=
  Regexp.searchFrom re b.data.length b.data

/-- The result of `regexp.Compile("^Souin; hit;(.*)")`: begin of text, the
literal `Souin; hit;`, and a capture group around `.*`. -/
def cacheStatusRegexp : Regexp :=
  Regexp.concat Regexp.beginText
    (Regexp.concat (Regexp.literal "Souin; hit;".data)
      (Regexp.capture (Regexp.star Regexp.anyCharNotNL)))

/-! ## The handler -/

/-- Go `strings.HasPrefix(s, p)`. -/
def HasPrefix (s p : String) : Bool :=
  p.data.isPrefixOf s.data

/-- Go `type UpdateSpanName struct`: the configured header name and the logger
(`none` is the nil pointer of a handler that was not provisioned). -/
structure UpdateSpanName where
  HeaderName : String
  logger : Option String
  deriving DecidableEq, Repr

/-- Go `(*UpdateSpanName).ServeHTTP`. The handler serves requests after
`Provision`; its debug messages are recorded in `World.logs`. -/
def ServeHTTP (usn : UpdateSpanName) (w : World) (r : Request) (next : Handler) :
    World × Option Error :=
  match next r w with
  | (w1, some err) => (w1, some err)
  | (w1, none) =>
    let spanCtx := SpanContextFromContext r
    if spanCtx.IsValid then
      let name := w1.header.Get usn.HeaderName
      let w2 := w1.Debug ("Setting span name to " ++ name)
      if name ≠ "" then
        let w3 := { w2 with span := w2.span.SetName name }
        let cacheStatus := w3.header.Get "Cache-Status"
        if cacheStatus ≠ "" then
          let cacheHit := cacheStatusRegexp.Match cacheStatus
          let kv : KeyValue := { Key := "cache.hit", Value := Value.BoolValue cacheHit }
          ({ w3 with span := w3.span.SetAttributes kv }, none)
        else
          (w3, none)
      else
        (w2, none)
    else
      (w1.Debug "Span context invalid", none)

/-! ## `strings.TrimSpace` -/

/-- Go `unicode.IsSpace`: the Latin-1 spaces `\t \n \v \f \r`, space, U+0085
and U+00A0, and above Latin-1 the code points with the `White_Space` property. -/
def IsSpace (c : Char) : Bool :=
  let r := c.toNat
  if r ≤ 0xFF then
    r == 0x09 || r == 0x0A || r == 0x0B || r == 0x0C || r == 0x0D || r == 0x20
      || r == 0x85 || r == 0xA0
  else
    r == 0x1680 || (decide (0x2000 ≤ r) && decide (r ≤ 0x200A)) || r == 0x2028 || r == 0x2029
      || r == 0x202F || r == 0x205F || r == 0x3000

/-- Go `strings.TrimSpace`: the string without its leading and trailing white
space. -/
def TrimSpace (s : String) : String :=
  ⟨(((s.data.dropWhile IsSpace).reverse).dropWhile IsSpace).reverse⟩

/-! ## `caddyfile.Dispenser` -/

/-- Go `caddyfile.Token`: where the token was read and its text. -/
structure Token where
  File : String
  imports : List String
  Line : Nat
  Text : String
  heredocMarker : String
  deriving DecidableEq, Repr

/-- Go `Token.NumLineBreaks`: the line breaks inside the token text, plus the
two marker lines of a heredoc. -/
def Token.NumLineBreaks (t : Token) : Nat :=
  t.Text.data.count '\n' + (if t.heredocMarker ≠ "" then 2 else 0)

/-- Go `isNextOnNewLine`: the second token comes from another file or import
chain, or starts on a line after the end of the first. -/
def isNextOnNewLine (t1 t2 : Token) : Bool :=
  if t1.File ≠ t2.File then true
  else if t1.imports ≠ t2.imports then true
  else decide (t1.Line + t1.NumLineBreaks < t2.Line)

/-- Go `caddyfile.Dispenser`: the tokens and the index of the current one
(`-1` before the first token is loaded). -/
structure Dispenser where
  tokens : List Token
  cursor : Int
  deriving DecidableEq, Repr

/-- Go `caddyfile.NewDispenser`. -/
def NewDispenser (tokens : List Token) : Dispenser :=
  ⟨tokens, -1⟩

/-- Go `Dispenser.Next`: loads the next token, if there is one. -/
def Dispenser.Next (d : Dispenser) : Dispenser × Bool :=
  if d.cursor < (d.tokens.length : Int) - 1 then
    ({ d with cursor := d.cursor + 1 }, true)
  else
    (d, false)

/-- Go `Dispenser.Val`: the text of the current token, `""` when the cursor is
outside the tokens. -/
def Dispenser.Val (d : Dispenser) : String :=
  if d.cursor < 0 ∨ d.cursor ≥ (d.tokens.length : Int) then ""
  else
    match d.tokens[d.cursor.toNat]? with
    | some t => t.Text
    | none => ""

/-- Go `Dispenser.nextOnSameLine`: loads the next token if it is on the line of
the current one. -/
def Dispenser.nextOnSameLine (d : Dispenser) : Dispenser × Bool :=
  if d.cursor < 0 then
    ({ d with cursor := d.cursor + 1 }, true)
  else if d.cursor ≥ (d.tokens.length : Int) - 1 then
    (d, false)
  else
    match d.tokens[d.cursor.toNat]?, d.tokens[(d.cursor + 1).toNat]? with
    | some curr, some next =>
      if !isNextOnNewLine curr next then ({ d with cursor := d.cursor + 1 }, true)
      else (d, false)
    | _, _ => (d, false)

/-- Go `Dispenser.NextArg`: loads the next token if it is on the same line and
is not the opening brace of a block. -/
def Dispenser.NextArg (d : Dispenser) : Dispenser × Bool :=
  match d.nextOnSameLine with
  | (d1, false) => (d1, false)
  | (d1, true) =>
    if d1.Val = "\x7b" then ({ d1 with cursor := d1.cursor - 1 }, false)
    else (d1, true)

/-- Go `Dispenser.ArgErr`: the argument error at the current token. -/
def Dispenser.ArgErr (d : Dispenser) : Error :=
  Error.argErr d.Val

/-! ## Configuration -/

/-- The loop `for d.Next() \x7b ... \x7d` of `UnmarshalCaddyfile`, one round per
unit of fuel; `none` when the fuel runs out before the loop ends. The result
is the handler and the returned error. -/
def UnmarshalCaddyfile.loop : Nat → UpdateSpanName → Dispenser →
    Option (UpdateSpanName × Option Error)
  | 0, _, _ => none
  | fuel + 1, usn, d =>
    match d.Next with
    | (_, false) => some (usn, none)
    | (d1, true) =>
      match d1.NextArg with
      | (d2, false) => some (usn, some d2.ArgErr)
      | (d2, true) =>
        let value := TrimSpace d2.Val
        if value ≠ "" then
          UnmarshalCaddyfile.loop fuel { usn with HeaderName := value } d2
        else
          UnmarshalCaddyfile.loop fuel usn d2

/-- The tokens left after the cursor, plus one: a bound on the rounds of the
loop of `UnmarshalCaddyfile`. -/
def Dispenser.fuel (d : Dispenser) : Nat :=
  ((d.tokens.length : Int) - 1 - d.cursor).toNat + 1

/-- Go `(*UpdateSpanName).UnmarshalCaddyfile`: the handler after the call and
the returned error. -/
def UnmarshalCaddyfile (usn : UpdateSpanName) (d : Dispenser) :
    Option (UpdateSpanName × Option Error) :=
  UnmarshalCaddyfile.loop d.fuel { usn with HeaderName := "x-span-name" } d

/-- Go `httpcaddyfile.Helper`: it carries the dispenser of the directive. -/
structure Helper where
  Dispenser : Dispenser

/-- Go `parseCaddyfileHandlerDirective`: unmarshals into a zero-valued handler. -/
def parseCaddyfileHandlerDirective (h : Helper) : Option (UpdateSpanName × Option Error) :=
  UnmarshalCaddyfile ⟨"", none⟩ h.Dispenser

/-- Go `CaddyModule().New`: `new(UpdateSpanName)`, the zero value. -/
def New : UpdateSpanName :=
  ⟨"", none⟩

/-- Decoding of the JSON configuration of the handler into `usn`: the field
`HeaderName` is set when the object has the key `header`, and left as it is
otherwise. -/
def unmarshalJSON (usn : UpdateSpanName) (header : Option String) : UpdateSpanName :=
  match header with
  | some h => { usn with HeaderName := h }
  | none => usn

/-- Go `caddy.Context`, reduced to the logger it hands out. -/
structure Context where
  Logger : String

/-- Go `(*UpdateSpanName).Provision`: stores the logger, returns nil. -/
def Provision (usn : UpdateSpanName) (ctx : Context) : UpdateSpanName × Option Error :=
  ({ usn with logger := some ctx.Logger }, none)

/-- Go `(*UpdateSpanName).Validate`: returns nil. -/
def Validate (_usn : UpdateSpanName) : Option Error :=
  none

/-- The tokens read in pairs, a head and its argument: an argument error at
the first head that is not followed by an argument (a token on the same line
that is not an opening brace), otherwise the trimmed text of the last
argument that is not blank replaces the header name `h`. -/
def readPairs : List Token → String → String × Option Error
  | [], h => (h, none)
  | [t], h => (h, some (Error.argErr t.Text))
  | t :: a :: rest, h =>
    if isNextOnNewLine t a || a.Text = "\x7b" then (h, some (Error.argErr t.Text))
    else readPairs rest (if TrimSpace a.Text ≠ "" then TrimSpace a.Text else h)

/-- A token of a directive line. -/
def tok (text : String) : Token :=
  ⟨"Caddyfile", [], 1, text, ""⟩

/-- Whether, reading the tokens in pairs of a head and its argument, some head
is not followed by an argument. -/
def someHeadLacksArgument : List Token → Bool
  | [] => false
  | [_] => true
  | t :: a :: rest =>
    isNextOnNewLine t a || decide (a.Text = "\x7b") || someHeadLacksArgument rest

/-- In the words of the specification: some occurrence of the directive name
among the tokens has no argument token following it. -/
def someOccurrenceLacksArgument (directive : String) : List Token → Bool
  | [] => false
  | [t] => decide (t.Text = directive)
  | t :: a :: rest =>
    (decide (t.Text = directive) && (isNextOnNewLine t a || decide (a.Text = "\x7b")))
      || someOccurrenceLacksArgument directive (a :: rest)

/-! ## Example inputs -/

/-- A response header store holding a span name and a cache status. -/
def exampleHeader (name cacheStatus : String) : Header :=
  ⟨fun k => if k = "x-span-name" then name else if k = "Cache-Status" then cacheStatus else ""⟩

/-- A world whose span still has the name given at creation. -/
def exampleWorld (name cacheStatus : String) : World :=
  ⟨exampleHeader name cacheStatus, ⟨"HTTP GET", [], []⟩, []⟩

/-- A request with a valid span context. -/
def tracedRequest : Request := ⟨⟨7, 9⟩⟩

/-- A request without a span: the span context is the zero value. -/
def untracedRequest : Request := ⟨⟨0, 0⟩⟩

/-- A downstream handler that succeeds and leaves the world as it is. -/
def okNext : Handler := fun _ w => (w, none)

/-- A downstream handler that fails. -/
def failingNext : Handler := fun _ w => (w, some (Error.other "upstream unavailable"))

/-- A handler configured with the default header name, after `Provision`. -/
def exampleHandler : UpdateSpanName := ⟨"x-span-name", some "http.handlers.otel_update_span_name"⟩

/-! ## Lemmas on the regular expression matcher -/

theorem starClosure_cons_ne_nil (f : List Char → List (List Char)) (k : Nat)
    (x : List Char) (xs : List (List Char)) :
    Regexp.starClosure f k (x :: xs) ≠ [] := by
  cases k <;> simp [Regexp.starClosure]

theorem ends_anchored_literal_isEmpty (n : Nat) (l s : List Char) :
    (Regexp.ends n (Regexp.concat Regexp.beginText
        (Regexp.concat (Regexp.literal l)
          (Regexp.capture (Regexp.star Regexp.anyCharNotNL)))) s).isEmpty
      = !(decide (s.length = n) && l.isPrefixOf s) := by
  simp only [Regexp.ends]
  by_cases hn : s.length = n
  · by_cases hp : l.isPrefixOf s = true
    · have h := starClosure_cons_ne_nil (fun x => Regexp.ends n Regexp.anyCharNotNL x)
        (List.drop l.length s).length (List.drop l.length s) []
      simp only [Regexp.ends] at h
      simp only [hn, hp, if_true, List.flatMap_cons, List.flatMap_nil, List.append_nil,
        decide_True, Bool.and_self, Bool.not_true, List.isEmpty_eq_false]
      exact h
    · simp only [Bool.not_eq_true] at hp
      simp only [hn, hp, if_true, Bool.false_eq_true, if_false, List.flatMap_cons,
        List.flatMap_nil, List.append_nil, decide_True, Bool.and_false, Bool.not_false,
        List.isEmpty_nil]
  · simp [hn]

theorem ends_cacheStatusRegexp_isEmpty (n : Nat) (s : List Char) :
    (Regexp.ends n cacheStatusRegexp s).isEmpty
      = !(decide (s.length = n) && "Souin; hit;".data.isPrefixOf s) :=
  ends_anchored_literal_isEmpty n "Souin; hit;".data s

theorem searchFrom_cacheStatusRegexp_inner (n : Nat) (s : List Char) (h : s.length < n) :
    Regexp.searchFrom cacheStatusRegexp n s = false := by
  induction s with
  | nil =>
    have hn : ¬ (([] : List Char).length = n) := by simp at h ⊢; omega
    simp only [Regexp.searchFrom, ends_cacheStatusRegexp_isEmpty, hn, decide_False,
      Bool.false_and, Bool.not_false, Bool.not_true]
  | cons c t ih =>
    have hn : ¬ ((c :: t).length = n) := by omega
    have ht : t.length < n := by simp at h; omega
    simp only [Regexp.searchFrom, ends_cacheStatusRegexp_isEmpty, hn, ih ht, decide_False,
      Bool.false_and, Bool.not_false, Bool.not_true, Bool.or_self]

/-- The anchored pattern matches exactly the texts that begin with the literal. -/
theorem Match_cacheStatusRegexp (c : String) :
    cacheStatusRegexp.Match c = HasPrefix c "Souin; hit;" := by
  unfold Regexp.Match HasPrefix
  cases c.data with
  | nil =>
    simp only [Regexp.searchFrom, ends_cacheStatusRegexp_isEmpty, decide_True, Bool.true_and,
      Bool.not_not]
  | cons a t =>
    have ht : Regexp.searchFrom cacheStatusRegexp (a :: t).length t = false :=
      searchFrom_cacheStatusRegexp_inner _ t (by simp)
    simp only [Regexp.searchFrom, ends_cacheStatusRegexp_isEmpty, ht, decide_True,
      Bool.true_and, Bool.not_not, Bool.or_false]

theorem attribute?_SetAttributes (s : Span) (kv : KeyValue) :
    (s.SetAttributes kv).attribute? kv.Key = some kv.Value := by
  simp [Span.SetAttributes, Span.attribute?]

/-! ## Theorems on `ServeHTTP` -/

/-- C1: with a valid span context, a successful downstream handler and a
non-empty value `V` under the configured header, `ServeHTTP` returns nil, the
span is named `V` exactly, and the calls it adds to the span start with
`SetName V` (followed by attribute calls only). -/
theorem ServeHTTP_renames_span (usn : UpdateSpanName) (w w1 : World) (r : Request)
    (next : Handler) (hnext : next r w = (w1, none))
    (hvalid : (SpanContextFromContext r).IsValid = true)
    (hV : w1.header.Get usn.HeaderName ≠ "") :
    (ServeHTTP usn w r next).2 = none ∧
    (ServeHTTP usn w r next).1.span.name = w1.header.Get usn.HeaderName ∧
    ∃ rest, (ServeHTTP usn w r next).1.span.calls
        = w1.span.calls ++ SpanCall.SetName (w1.header.Get usn.HeaderName) :: rest ∧
      ∀ c ∈ rest, ∃ kv, c = SpanCall.SetAttributes kv := by
  unfold ServeHTTP
  rw [hnext]
  by_cases hc : w1.header.Get "Cache-Status" = ""
  · simp [hvalid, hV, hc, World.Debug, Span.SetName]
  · simp [hvalid, hV, hc, World.Debug, Span.SetName, Span.SetAttributes]

theorem ServeHTTP_renames_span_witness :
    (ServeHTTP exampleHandler (exampleWorld " GET /users/:id " "") tracedRequest okNext).1.span.name
      = " GET /users/:id " :=
  (ServeHTTP_renames_span exampleHandler (exampleWorld " GET /users/:id " "")
    (exampleWorld " GET /users/:id " "") tracedRequest okNext rfl (by decide) (by decide)).2.1

/-- C2: when the downstream handler returns an error `e`, `ServeHTTP` returns
`e` and leaves the world as the downstream handler left it: the span receives
no `SetName` and no `SetAttributes` call, whatever the request and headers. -/
theorem ServeHTTP_downstream_error (usn : UpdateSpanName) (w w1 : World) (r : Request)
    (next : Handler) (e : Error) (hnext : next r w = (w1, some e)) :
    ServeHTTP usn w r next = (w1, some e) ∧
    (ServeHTTP usn w r next).1.span = w1.span := by
  unfold ServeHTTP
  rw [hnext]
  exact ⟨rfl, rfl⟩

theorem ServeHTTP_downstream_error_witness :
    ServeHTTP exampleHandler (exampleWorld "GET /users/:id" "Souin; hit; ttl=30")
        tracedRequest failingNext
      = (exampleWorld "GET /users/:id" "Souin; hit; ttl=30",
          some (Error.other "upstream unavailable")) :=
  (ServeHTTP_downstream_error exampleHandler _ _ tracedRequest failingNext _ rfl).1

/-- C3: with an invalid span context and a successful downstream handler,
`ServeHTTP` returns nil and only writes a debug message: the span (name,
attributes and received calls) is as the downstream handler left it, whatever
the response headers hold. -/
theorem ServeHTTP_invalid_span_context (usn : UpdateSpanName) (w w1 : World) (r : Request)
    (next : Handler) (hnext : next r w = (w1, none))
    (hinvalid : (SpanContextFromContext r).IsValid = false) :
    ServeHTTP usn w r next = (w1.Debug "Span context invalid", none) ∧
    (ServeHTTP usn w r next).1.span = w1.span := by
  unfold ServeHTTP
  rw [hnext]
  simp [hinvalid, World.Debug]

theorem ServeHTTP_invalid_span_context_witness :
    (ServeHTTP exampleHandler (exampleWorld "GET /users/:id" "Souin; hit; ttl=30")
        untracedRequest okNext).1.span = ⟨"HTTP GET", [], []⟩ :=
  (ServeHTTP_invalid_span_context exampleHandler
    (exampleWorld "GET /users/:id" "Souin; hit; ttl=30") _ untracedRequest okNext rfl
    (by decide)).2

/-- C4: when the span is renamed and the `Cache-Status` value `c` is not
empty, `ServeHTTP` attaches exactly one attribute, `cache.hit`, whose boolean
value is the result of matching `c` against the pattern, and that result is
true exactly when `c` begins with `Souin; hit;`. -/
theorem ServeHTTP_cache_hit (usn : UpdateSpanName) (w w1 : World) (r : Request)
    (next : Handler) (hnext : next r w = (w1, none))
    (hvalid : (SpanContextFromContext r).IsValid = true)
    (hV : w1.header.Get usn.HeaderName ≠ "")
    (hc : w1.header.Get "Cache-Status" ≠ "") :
    cacheStatusRegexp.Match (w1.header.Get "Cache-Status")
      = HasPrefix (w1.header.Get "Cache-Status") "Souin; hit;" ∧
    (ServeHTTP usn w r next).1.span
      = (w1.span.SetName (w1.header.Get usn.HeaderName)).SetAttributes
          ⟨"cache.hit", Value.BoolValue (HasPrefix (w1.header.Get "Cache-Status") "Souin; hit;")⟩ ∧
    (ServeHTTP usn w r next).1.span.attribute? "cache.hit"
      = some (Value.BoolValue (HasPrefix (w1.header.Get "Cache-Status") "Souin; hit;")) ∧
    (ServeHTTP usn w r next).2 = none := by
  have hm := Match_cacheStatusRegexp (w1.header.Get "Cache-Status")
  have hs : (ServeHTTP usn w r next)
      = ({ w1.Debug ("Setting span name to " ++ w1.header.Get usn.HeaderName) with
            span := (w1.span.SetName (w1.header.Get usn.HeaderName)).SetAttributes
              ⟨"cache.hit",
                Value.BoolValue (HasPrefix (w1.header.Get "Cache-Status") "Souin; hit;")⟩ },
          none) := by
    unfold ServeHTTP
    rw [hnext]
    simp [hvalid, hV, hc, World.Debug, hm]
  refine ⟨hm, ?_, ?_, ?_⟩
  · rw [hs]
  · rw [hs]
    exact attribute?_SetAttributes _ ⟨"cache.hit", _⟩
  · rw [hs]

theorem ServeHTTP_cache_hit_witness :
    (ServeHTTP exampleHandler (exampleWorld "GET /users/:id" "Souin; hit; ttl=10")
        tracedRequest okNext).1.span.attribute? "cache.hit" = some (Value.BoolValue true) ∧
    (ServeHTTP exampleHandler (exampleWorld "GET /users/:id" "Souin; miss")
        tracedRequest okNext).1.span.attribute? "cache.hit" = some (Value.BoolValue false) :=
  ⟨(ServeHTTP_cache_hit exampleHandler (exampleWorld "GET /users/:id" "Souin; hit; ttl=10") _
      tracedRequest okNext rfl (by decide) (by decide) (by decide)).2.2.1,
   (ServeHTTP_cache_hit exampleHandler (exampleWorld "GET /users/:id" "Souin; miss") _
      tracedRequest okNext rfl (by decide) (by decide) (by decide)).2.2.1⟩

/-- C5: when the span is renamed and the `Cache-Status` value is empty (the
lookup of an absent header gives the empty string), the rename is the only
call the span receives: no attribute is attached. -/
theorem ServeHTTP_no_cache_status (usn : UpdateSpanName) (w w1 : World) (r : Request)
    (next : Handler) (hnext : next r w = (w1, none))
    (hvalid : (SpanContextFromContext r).IsValid = true)
    (hV : w1.header.Get usn.HeaderName ≠ "")
    (hc : w1.header.Get "Cache-Status" = "") :
    (ServeHTTP usn w r next).1.span = w1.span.SetName (w1.header.Get usn.HeaderName) ∧
    (ServeHTTP usn w r next).1.span.calls
      = w1.span.calls ++ [SpanCall.SetName (w1.header.Get usn.HeaderName)] ∧
    (ServeHTTP usn w r next).1.span.attributes = w1.span.attributes ∧
    (ServeHTTP usn w r next).2 = none := by
  unfold ServeHTTP
  rw [hnext]
  simp [hvalid, hV, hc, World.Debug, Span.SetName]

theorem ServeHTTP_no_cache_status_witness :
    (ServeHTTP exampleHandler (exampleWorld "GET /users/:id" "") tracedRequest okNext).1.span
      = ⟨"GET /users/:id", [], [SpanCall.SetName "GET /users/:id"]⟩ :=
  (ServeHTTP_no_cache_status exampleHandler (exampleWorld "GET /users/:id" "") _
    tracedRequest okNext rfl (by decide) (by decide) (by decide)).1

/-- C6: with a valid span context, a successful downstream handler and an
empty value under the configured header, `ServeHTTP` returns nil and only
writes a debug message: the span is as the downstream handler left it (so as
it was before the stage ran, when the downstream handler did not touch it),
also when `Cache-Status` is set. -/
theorem ServeHTTP_empty_header (usn : UpdateSpanName) (w w1 : World) (r : Request)
    (next : Handler) (hnext : next r w = (w1, none))
    (hvalid : (SpanContextFromContext r).IsValid = true)
    (hV : w1.header.Get usn.HeaderName = "") :
    ServeHTTP usn w r next = (w1.Debug "Setting span name to ", none) ∧
    (ServeHTTP usn w r next).1.span = w1.span ∧
    (w1.span = w.span → (ServeHTTP usn w r next).1.span = w.span) := by
  unfold ServeHTTP
  rw [hnext]
  simp [hvalid, hV, World.Debug]

theorem ServeHTTP_empty_header_witness :
    (ServeHTTP exampleHandler (exampleWorld "" "Souin; hit; ttl=30") tracedRequest okNext).1.span
      = ⟨"HTTP GET", [], []⟩ :=
  (ServeHTTP_empty_header exampleHandler (exampleWorld "" "Souin; hit; ttl=30") _
    tracedRequest okNext rfl (by decide) (by decide)).2.1

/-! ## Lemmas on the dispenser -/

theorem Next_nil (pre : List Token) :
    (Dispenser.mk (pre ++ []) ((pre.length : Int) - 1)).Next
      = (Dispenser.mk (pre ++ []) ((pre.length : Int) - 1), false) := by
  simp [Dispenser.Next]

theorem Next_cons (pre : List Token) (t : Token) (rest : List Token) :
    (Dispenser.mk (pre ++ t :: rest) ((pre.length : Int) - 1)).Next
      = (Dispenser.mk (pre ++ t :: rest) (pre.length : Int), true) := by
  simp only [Dispenser.Next, List.length_append, List.length_cons, Nat.cast_add, Nat.cast_one]
  rw [if_pos (by omega)]
  simp

theorem Val_cons (pre : List Token) (t : Token) (rest : List Token) :
    (Dispenser.mk (pre ++ t :: rest) (pre.length : Int)).Val = t.Text := by
  simp only [Dispenser.Val, List.length_append, List.length_cons, Nat.cast_add, Nat.cast_one]
  rw [if_neg (by omega)]
  have h : (pre ++ t :: rest)[((pre.length : Int)).toNat]? = some t := by
    have h1 : ((pre.length : Int)).toNat = pre.length := by simp
    rw [h1, List.getElem?_append_right (Nat.le_refl _)]
    simp
  simp only [h]

theorem NextArg_last (pre : List Token) (t : Token) :
    (Dispenser.mk (pre ++ [t]) (pre.length : Int)).NextArg
      = (Dispenser.mk (pre ++ [t]) (pre.length : Int), false) := by
  simp only [Dispenser.NextArg, Dispenser.nextOnSameLine, List.length_append, List.length_cons,
    List.length_nil, Nat.cast_add, Nat.cast_one]
  rw [if_neg (by omega), if_pos (by omega)]

theorem NextArg_cons (pre : List Token) (t a : Token) (rest : List Token) :
    (Dispenser.mk (pre ++ t :: a :: rest) (pre.length : Int)).NextArg
      = if isNextOnNewLine t a || decide (a.Text = "\x7b") then
          (Dispenser.mk (pre ++ t :: a :: rest) (pre.length : Int), false)
        else
          (Dispenser.mk (pre ++ t :: a :: rest) ((pre.length : Int) + 1), true) := by
  have hv : (Dispenser.mk (pre ++ t :: a :: rest) ((pre.length : Int) + 1)).Val = a.Text := by
    have h := Val_cons (pre ++ [t]) a rest
    simpa using h
  have h1 : ((pre.length : Int)).toNat = pre.length := by simp
  have h2 : ((pre.length : Int) + 1).toNat = pre.length + 1 := by omega
  simp only [Dispenser.NextArg, Dispenser.nextOnSameLine, List.length_append, List.length_cons,
    Nat.cast_add, Nat.cast_one]
  rw [if_neg (by omega), if_neg (by omega), h1, h2]
  simp only [List.getElem?_append_right, Nat.le_refl, Nat.sub_self, List.getElem?_cons_zero,
    Nat.le_add_right, Nat.add_sub_cancel_left, List.getElem?_cons_succ]
  by_cases hl : isNextOnNewLine t a = true
  · simp [hl]
  · simp only [Bool.not_eq_true] at hl
    by_cases hb : a.Text = "\x7b"
    · simp [hl, hv, hb]
    · simp [hl, hv, hb]

theorem Next_true (d d1 : Dispenser) (h : d.Next = (d1, true)) :
    d1.tokens = d.tokens ∧ d1.cursor = d.cursor + 1 ∧ d.cursor < (d.tokens.length : Int) - 1 := by
  unfold Dispenser.Next at h
  split at h
  · next hlt =>
    simp only [Prod.mk.injEq, and_true] at h
    subst h
    exact ⟨rfl, rfl, hlt⟩
  · simp at h

theorem nextOnSameLine_true (d d1 : Dispenser) (h : d.nextOnSameLine = (d1, true)) :
    d1.tokens = d.tokens ∧ d1.cursor = d.cursor + 1 := by
  unfold Dispenser.nextOnSameLine at h
  split at h
  · simp only [Prod.mk.injEq, and_true] at h
    subst h
    exact ⟨rfl, rfl⟩
  · split at h
    · simp at h
    · split at h
      · split at h
        · simp only [Prod.mk.injEq, and_true] at h
          subst h
          exact ⟨rfl, rfl⟩
        · simp at h
      · simp at h

theorem NextArg_true (d d1 : Dispenser) (h : d.NextArg = (d1, true)) :
    d1.tokens = d.tokens ∧ d1.cursor = d.cursor + 1 := by
  unfold Dispenser.NextArg at h
  split at h
  · simp at h
  · next d2 hs =>
    split at h
    · simp at h
    · simp only [Prod.mk.injEq, and_true] at h
      subst h
      exact nextOnSameLine_true d d2 hs

/-! ## Lemmas on the loop of `UnmarshalCaddyfile` -/

/-- The loop ends within the fuel `Dispenser.fuel`, from every dispenser state. -/
theorem loop_isSome (fuel : Nat) : ∀ (usn : UpdateSpanName) (d : Dispenser),
    d.fuel ≤ fuel → (UnmarshalCaddyfile.loop fuel usn d).isSome = true := by
  induction fuel with
  | zero =>
    intro usn d h
    simp [Dispenser.fuel] at h
  | succ k ih =>
    intro usn d h
    unfold UnmarshalCaddyfile.loop
    split
    · rfl
    · next d1 hn =>
      obtain ⟨ht1, hc1, hlt⟩ := Next_true d d1 hn
      split
      · rfl
      · next d2 ha =>
        obtain ⟨ht2, hc2⟩ := NextArg_true d1 d2 ha
        have hf : d2.fuel ≤ k := by
          unfold Dispenser.fuel at h ⊢
          rw [ht2, ht1, hc2, hc1]
          omega
        simp only []
        split
        · exact ih _ d2 hf
        · exact ih _ d2 hf

/-- The loop never leaves an empty header name behind. -/
theorem loop_HeaderName_ne_empty (fuel : Nat) : ∀ (usn : UpdateSpanName) (d : Dispenser)
    (res : UpdateSpanName × Option Error), usn.HeaderName ≠ "" →
    UnmarshalCaddyfile.loop fuel usn d = some res → res.1.HeaderName ≠ "" := by
  induction fuel with
  | zero =>
    intro usn d res _ h
    simp [UnmarshalCaddyfile.loop] at h
  | succ k ih =>
    intro usn d res hne h
    unfold UnmarshalCaddyfile.loop at h
    split at h
    · simp only [Option.some.injEq] at h
      subst h
      exact hne
    · split at h
      · simp only [Option.some.injEq] at h
        subst h
        exact hne
      · next d2 _ =>
        simp only [] at h
        split at h
        · next hv => exact ih _ d2 res hv h
        · exact ih _ d2 res hne h

/-- The loop, started with `pre` consumed and `rest` ahead, reads `rest` in
pairs of a head and its argument. -/
theorem loop_eq_readPairs (fuel : Nat) : ∀ (usn : UpdateSpanName) (pre rest : List Token),
    rest.length < fuel →
    UnmarshalCaddyfile.loop fuel usn (Dispenser.mk (pre ++ rest) ((pre.length : Int) - 1))
      = some (⟨(readPairs rest usn.HeaderName).1, usn.logger⟩,
              (readPairs rest usn.HeaderName).2) := by
  induction fuel with
  | zero =>
    intro usn pre rest h
    omega
  | succ k ih =>
    intro usn pre rest h
    unfold UnmarshalCaddyfile.loop
    match rest with
    | [] =>
      rw [Next_nil]
      simp [readPairs]
    | [t] =>
      rw [Next_cons]
      dsimp only
      rw [NextArg_last]
      simp [readPairs, Dispenser.ArgErr, Val_cons]
    | t :: a :: rest1 =>
      rw [Next_cons]
      dsimp only
      rw [NextArg_cons]
      have hk : rest1.length < k := by simp at h; omega
      have hd : Dispenser.mk (pre ++ t :: a :: rest1) ((pre.length : Int) + 1)
          = Dispenser.mk ((pre ++ [t, a]) ++ rest1) (((pre ++ [t, a]).length : Int) - 1) := by
        simp
        omega
      have hv : (Dispenser.mk (pre ++ t :: a :: rest1) ((pre.length : Int) + 1)).Val = a.Text := by
        have h := Val_cons (pre ++ [t]) a rest1
        simpa using h
      by_cases hc : (isNextOnNewLine t a || decide (a.Text = "\x7b")) = true
      · rw [if_pos hc]
        simp [readPairs, hc, Dispenser.ArgErr, Val_cons]
      · rw [if_neg hc]
        simp only [hv]
        rw [hd]
        by_cases hb : TrimSpace a.Text = ""
        · simp only [hb, ne_eq, not_true_eq_false, if_false]
          rw [ih usn (pre ++ [t, a]) rest1 hk]
          simp [readPairs, hc, hb]
        · simp only [hb, ne_eq, not_false_eq_true, if_true]
          rw [ih _ (pre ++ [t, a]) rest1 hk]
          simp [readPairs, hc, hb]

theorem readPairs_error_iff (toks : List Token) : ∀ (h : String),
    (readPairs toks h).2.isSome = someHeadLacksArgument toks := by
  induction toks using someHeadLacksArgument.induct with
  | case1 => intro h; simp [readPairs, someHeadLacksArgument]
  | case2 t => intro h; simp [readPairs, someHeadLacksArgument]
  | case3 t a rest ih =>
    intro h
    by_cases hc : (isNextOnNewLine t a || decide (a.Text = "\x7b")) = true
    · simp [readPairs, someHeadLacksArgument, hc]
    · rw [readPairs, if_neg hc, ih, someHeadLacksArgument]
      simp only [Bool.not_eq_true] at hc
      rw [hc, Bool.false_or]

/-! ## Lemmas on `strings.TrimSpace` -/

/-- `TrimSpace s` is `s` without a run of white space at each end, and has no
white space at either end. -/
theorem TrimSpace_spec (s : String) :
    ∃ pre post : List Char, s.data = pre ++ (TrimSpace s).data ++ post ∧
      (∀ c ∈ pre, IsSpace c = true) ∧ (∀ c ∈ post, IsSpace c = true) ∧
      (∀ c, (TrimSpace s).data.head? = some c → IsSpace c = false) ∧
      (∀ c, (TrimSpace s).data.getLast? = some c → IsSpace c = false) := by
  have hm : (s.data.dropWhile IsSpace)
      = ((s.data.dropWhile IsSpace).reverse.dropWhile IsSpace).reverse
        ++ ((s.data.dropWhile IsSpace).reverse.takeWhile IsSpace).reverse := by
    rw [← List.reverse_append, List.takeWhile_append_dropWhile, List.reverse_reverse]
  refine ⟨s.data.takeWhile IsSpace,
    ((s.data.dropWhile IsSpace).reverse.takeWhile IsSpace).reverse, ?_, ?_, ?_, ?_, ?_⟩
  · show s.data = s.data.takeWhile IsSpace
        ++ ((s.data.dropWhile IsSpace).reverse.dropWhile IsSpace).reverse
        ++ ((s.data.dropWhile IsSpace).reverse.takeWhile IsSpace).reverse
    rw [List.append_assoc, ← hm, List.takeWhile_append_dropWhile]
  · intro c hc
    exact List.mem_takeWhile_imp hc
  · intro c hc
    exact List.mem_takeWhile_imp (List.mem_reverse.mp hc)
  · intro c hc
    have hc1 : (((s.data.dropWhile IsSpace).reverse.dropWhile IsSpace).reverse).head? = some c := hc
    have h2 : (s.data.dropWhile IsSpace).head? = some c := by
      rw [hm, List.head?_append, hc1]
      rfl
    have h3 := List.head?_dropWhile_not IsSpace s.data
    rw [h2] at h3
    simpa using h3
  · intro c hc
    have hc1 : (((s.data.dropWhile IsSpace).reverse.dropWhile IsSpace).reverse).getLast? = some c := hc
    rw [List.getLast?_reverse] at hc1
    have h3 := List.head?_dropWhile_not IsSpace (s.data.dropWhile IsSpace).reverse
    rw [hc1] at h3
    simpa using h3

/-! ## Theorems on the configuration -/

/-- `UnmarshalCaddyfile` returns from every dispenser state, and the header
name it leaves is never empty. -/
theorem UnmarshalCaddyfile_HeaderName_ne_empty (usn : UpdateSpanName) (d : Dispenser) :
    ∃ res, UnmarshalCaddyfile usn d = some res ∧ res.1.HeaderName ≠ "" := by
  have h := loop_isSome d.fuel { usn with HeaderName := "x-span-name" } d (Nat.le_refl _)
  obtain ⟨res, hres⟩ := Option.isSome_iff_exists.mp h
  exact ⟨res, hres, loop_HeaderName_ne_empty _ _ d res (by simp) hres⟩

/-- On a fresh dispenser `UnmarshalCaddyfile` reads the tokens in pairs. -/
theorem UnmarshalCaddyfile_NewDispenser (usn : UpdateSpanName) (toks : List Token) :
    UnmarshalCaddyfile usn (NewDispenser toks)
      = some (⟨(readPairs toks "x-span-name").1, usn.logger⟩,
              (readPairs toks "x-span-name").2) := by
  have h := loop_eq_readPairs (toks.length + 1) { usn with HeaderName := "x-span-name" } [] toks
    (Nat.lt_succ_self _)
  simp only [List.nil_append, List.length_nil, Nat.cast_zero, zero_sub] at h
  unfold UnmarshalCaddyfile NewDispenser Dispenser.fuel
  have hf : (((toks.length : Int) - 1 - (-1)).toNat + 1) = toks.length + 1 := by omega
  simp only [hf]
  exact h

/-- C7: for a directive with an empty argument list (the token after the
directive name, if any, is on a new line or opens a block),
`UnmarshalCaddyfile` leaves the header name at the default `x-span-name`; the
call returns the argument error at the directive name. -/
theorem UnmarshalCaddyfile_no_argument (usn : UpdateSpanName) (name : Token)
    (rest : List Token)
    (hno : ∀ a rest1, rest = a :: rest1 →
      (isNextOnNewLine name a || decide (a.Text = "\x7b")) = true) :
    UnmarshalCaddyfile usn (NewDispenser (name :: rest))
      = some (⟨"x-span-name", usn.logger⟩, some (Error.argErr name.Text)) := by
  rw [UnmarshalCaddyfile_NewDispenser]
  cases rest with
  | nil => simp [readPairs]
  | cons a rest1 =>
    have h := hno a rest1 rfl
    simp [readPairs, h]

theorem UnmarshalCaddyfile_no_argument_witness :
    UnmarshalCaddyfile New (NewDispenser [tok "update_span_name"])
      = some (⟨"x-span-name", none⟩, some (Error.argErr "update_span_name")) :=
  UnmarshalCaddyfile_no_argument New (tok "update_span_name") []
    (fun _ _ h => by simp at h)

/-- C8: for a directive with a single argument token `t` (on the line of the
directive name, not an opening brace) that is not blank, `UnmarshalCaddyfile`
returns nil and sets the header name to `strings.TrimSpace t`, which is `t`
without the white space at its two ends. -/
theorem UnmarshalCaddyfile_single_argument (usn : UpdateSpanName) (name t : Token)
    (hline : isNextOnNewLine name t = false) (hbrace : t.Text ≠ "\x7b")
    (hblank : TrimSpace t.Text ≠ "") :
    UnmarshalCaddyfile usn (NewDispenser [name, t])
      = some (⟨TrimSpace t.Text, usn.logger⟩, none) ∧
    ∃ pre post : List Char, t.Text.data = pre ++ (TrimSpace t.Text).data ++ post ∧
      (∀ c ∈ pre, IsSpace c = true) ∧ (∀ c ∈ post, IsSpace c = true) ∧
      (∀ c, (TrimSpace t.Text).data.head? = some c → IsSpace c = false) ∧
      (∀ c, (TrimSpace t.Text).data.getLast? = some c → IsSpace c = false) := by
  refine ⟨?_, TrimSpace_spec t.Text⟩
  rw [UnmarshalCaddyfile_NewDispenser]
  simp [readPairs, hline, hbrace, hblank]

theorem UnmarshalCaddyfile_single_argument_witness :
    UnmarshalCaddyfile New (NewDispenser [tok "update_span_name", tok " x-trace-name\t"])
      = some (⟨"x-trace-name", none⟩, none) :=
  (UnmarshalCaddyfile_single_argument New (tok "update_span_name") (tok " x-trace-name\t")
    (by decide) (by decide) (by decide)).1

/-- C9: a handler configured through JSON keeps an empty header name: with
the key `header` unset, or set to the empty string, `HeaderName` is empty
after `Provision`, and `Validate` accepts it. -/
theorem Provision_keeps_empty_HeaderName :
    (Provision (unmarshalJSON New none) ⟨"http.handlers.otel_update_span_name"⟩).1.HeaderName = "" ∧
    (Provision (unmarshalJSON New (some "")) ⟨"http.handlers.otel_update_span_name"⟩).1.HeaderName
      = "" ∧
    (Provision (unmarshalJSON New none) ⟨"http.handlers.otel_update_span_name"⟩).2 = none ∧
    Validate (Provision (unmarshalJSON New none) ⟨"http.handlers.otel_update_span_name"⟩).1
      = none := by
  decide

/-- C10, as stated, fails: a directive with two arguments is rejected with
an argument error although its only occurrence has an argument, and with three
arguments it is the third one that becomes the header name. -/
theorem UnmarshalCaddyfile_extra_arguments :
    UnmarshalCaddyfile New (NewDispenser [tok "update_span_name", tok "a", tok "b"])
      = some (⟨"a", none⟩, some (Error.argErr "b")) ∧
    someOccurrenceLacksArgument "update_span_name"
      [tok "update_span_name", tok "a", tok "b"] = false ∧
    UnmarshalCaddyfile New
        (NewDispenser [tok "update_span_name", tok "a", tok "b", tok "c"])
      = some (⟨"c", none⟩, none) := by
  decide

/-- C10, amended: on a fresh dispenser `UnmarshalCaddyfile` reads the tokens
in pairs of a head and its argument, whatever the text of the head. It returns
an argument error exactly when some head is not followed by an argument;
otherwise it returns nil, and the header name is the trimmed text of the last
argument that is not blank, or `x-span-name`. -/
theorem UnmarshalCaddyfile_reads_pairs (usn : UpdateSpanName) (toks : List Token) :
    UnmarshalCaddyfile usn (NewDispenser toks)
      = some (⟨(readPairs toks "x-span-name").1, usn.logger⟩,
              (readPairs toks "x-span-name").2) ∧
    ((readPairs toks "x-span-name").2.isSome = someHeadLacksArgument toks) :=
  ⟨UnmarshalCaddyfile_NewDispenser usn toks, readPairs_error_iff toks "x-span-name"⟩

end OtelSpanName
